import Mathlib

/-!
Verification of the fishroom rich-text formatting and sanitization core.

Strings are modelled as `List Char`.  The data model (`TextStyle`, `Color`,
`RichText`, `Message`) and the inbound IRC parser live in `models.py` and
`textformat.py`, which are not among the sources; they are modelled from the
spec where noted.  The renderers (`IRC.py`, `DiscourseBabble.py`,
`telegram.py`) and the sanitizers (`xss.py`) are translated from the sources.
-/

namespace Fishroom

/-- A string is modelled as a list of characters. -/
abbrev Str := List Char

/-- Modelled from the spec: `Color` (models.py is not in the sources) carries a
foreground palette index and an optional background palette index.  Range
validation happens in `mkColor`, not here, because the inbound parser
accumulates raw indices. -/
structure Color where
  fg : Nat
  bg : Option Nat := none
deriving DecidableEq, Repr

/-- Modelled from the spec: validating `Color` construction; an index outside
`[0, 16]` is an `InvalidColor` error, rendered here as `none`. -/
def mkColor (fg : Nat) (bg : Option Nat) : Option Color :=
  if fg ≤ 16 ∧ (∀ b ∈ bg, b ≤ 16) then some ⟨fg, bg⟩ else none

/-- Modelled from the spec: `TextStyle` (models.py is not in the sources) has
bold/italic/underline flags and an optional color, compared by value. -/
structure TextStyle where
  bold : Bool := false
  italic : Bool := false
  underline : Bool := false
  color : Option Color := none
deriving DecidableEq, Repr

def TextStyle.is_bold (ts : TextStyle) : Bool := ts.bold

def TextStyle.is_italic (ts : TextStyle) : Bool := ts.italic

def TextStyle.is_underline (ts : TextStyle) : Bool := ts.underline

def TextStyle.has_color (ts : TextStyle) : Bool := ts.color.isSome

/-- Modelled from the spec: a normal style has all flags false and no color. -/
def TextStyle.is_normal (ts : TextStyle) : Bool :=
  !ts.bold && !ts.italic && !ts.underline && !ts.color.isSome

/-- Modelled from the spec: `RichText` is an ordered sequence of
(style, text) runs. -/
abbrev RichText := List (TextStyle × Str)

/-- Modelled from the spec: `toPlain` concatenates all run texts, ignoring
styles. -/
def RichText.toPlain (rt : RichText) : Str := (rt.map Prod.snd).flatten

/-- Truthiness of the optional background index, mirroring Python's
`if ts.color.bg:` which is false both for `None` and for `0`. -/
def bgTruthy : Option Nat → Bool
  | none => false
  | some b => b ≠ 0

end Fishroom

namespace Fishroom

/-! ### xss.py -/

/-- Character-wise string transformation; `Python re.sub`/`str.replace` with a
single-character pattern acts independently on each character, which is what
the substitutions in xss.py and the html module use. -/
def strMap (f : Char → Str) : Str → Str
  | [] => []
  | c :: s => f c ++ strMap f s

/-- One `re.sub(pattern, repl, text)` pass for a single-character pattern. -/
def replaceChar (pat : Char) (rep : Str) (s : Str) : Str :=
  strMap (fun c => if c = pat then rep else [c]) s

/-- xss.py `replace(text, rs)`: apply the substitution passes in order. -/
def replaceRules (rs : List (Char × Str)) (t : Str) : Str :=
  rs.foldl (fun t r => replaceChar r.1 r.2 t) t

/-- The character the backtick denotes (kept out of character-literal syntax). -/
def backtick : Char := Char.ofNat 96

/-- The apostrophe character. -/
def apostrophe : Char := Char.ofNat 39

/-- xss.py `md_escape` replacement table; each regex pattern is a single
escaped literal character, each replacement a literal string. -/
def md_replacements : List (Char × Str) :=
  [ ('*', "\\*".toList), ('#', "\\#".toList), ('/', "\\/".toList),
    ('(', "\\(".toList), (')', "\\)".toList), ('[', "\\[".toList),
    (']', "\\]".toList), ('<', "&lt;".toList), ('>', "&gt;".toList),
    ('_', "\\_".toList), (backtick, "\\`".toList) ]

/-- xss.py `md_escape(text)`. -/
def md_escape (t : Str) : Str := replaceRules md_replacements t

/-- xss.py tag stripping, `re.sub(r'<[^>]+>', '', message)`, as a one-pass
state machine: `none` means scanning normally, `some pend` means a `<` has
been seen and `pend` holds the candidate tag body read so far. -/
def stripAux : Option Str → Str → Str
  | none, [] => []
  | some pend, [] => '<' :: pend
  | none, c :: r => if c = '<' then stripAux (some []) r else c :: stripAux none r
  | some pend, c :: r =>
    if c = '>' then
      if pend = [] then '<' :: '>' :: stripAux none r
      else stripAux none r
    else stripAux (some (pend ++ [c])) r

/-- Remove every substring matching `<[^>]+>` (leftmost, non-overlapping). -/
def stripTags (s : Str) : Str := stripAux none s

/-- Modelled from the Python standard library `html.unescape`, restricted to
the named and numeric character references exercised here; other ampersands
are left alone. -/
def htmlUnescape : Str → Str
  | [] => []
  | '&' :: 'a' :: 'm' :: 'p' :: ';' :: r => '&' :: htmlUnescape r
  | '&' :: 'l' :: 't' :: ';' :: r => '<' :: htmlUnescape r
  | '&' :: 'g' :: 't' :: ';' :: r => '>' :: htmlUnescape r
  | '&' :: 'q' :: 'u' :: 'o' :: 't' :: ';' :: r => '"' :: htmlUnescape r
  | '&' :: '#' :: '3' :: '9' :: ';' :: r => apostrophe :: htmlUnescape r
  | '&' :: '#' :: 'x' :: '2' :: '7' :: ';' :: r => apostrophe :: htmlUnescape r
  | c :: r => c :: htmlUnescape r

/-- xss.py `cooked_unescape(message)`: strip tags, then unescape entities. -/
def cooked_unescape (s : Str) : Str := htmlUnescape (stripTags s)

/-- Scanner deciding whether a string still contains a substring matching
`<[^>]+>`: some `<` followed (not immediately) by a later `>`. -/
def hasTagB : Str → Bool
  | [] => false
  | c :: r => (c == '<' && !(r.head? == some '>') && r.contains '>') || hasTagB r

end Fishroom

namespace Fishroom

/-! ### IRC.py: control-code renderer -/

/-- IRC control characters (textformat.py's `IRCCtrl` is not in the sources;
these are the standard IRC formatting control bytes named by the spec). -/
def ircBOLD : Char := Char.ofNat 2

def ircCOLOR : Char := Char.ofNat 3

def ircRESET : Char := Char.ofNat 15

def ircITALIC : Char := Char.ofNat 29

def ircUNDERLINE : Char := Char.ofNat 31

def ircCtrlChars : List Char := [ircBOLD, ircCOLOR, ircRESET, ircITALIC, ircUNDERLINE]

/-- Decimal representation, fuelled so that it evaluates by kernel
reduction; the fuel `n + 1` always suffices. -/
def natStrAux : Nat → Nat → Str
  | 0, _ => []
  | fuel + 1, n =>
    if n < 10 then [Nat.digitChar n]
    else natStrAux fuel (n / 10) ++ [Nat.digitChar (n % 10)]

/-- Decimal representation of a natural number, as Python's `str`. -/
def natStr (n : Nat) : Str := natStrAux (n + 1) n

/-- IRC.py the color part of the control prefix:
`"{},{}".format(fg, bg)` when `ts.color.bg` is truthy, else `"{}".format(fg)`. -/
def ircColorCtrl (c : Color) : Str :=
  if bgTruthy c.bg then natStr c.fg ++ ',' :: natStr (c.bg.getD 0)
  else natStr c.fg

namespace IRCHandle

/-- IRC.py `IRCHandle.formatRichText`: the control-code prefix collected in
`ctrl` for a non-normal style. -/
def ctrlOf (ts : TextStyle) : Str :=
  (if ts.is_bold then [ircBOLD] else []) ++
  (if ts.is_italic then [ircITALIC] else []) ++
  (if ts.is_underline then [ircUNDERLINE] else []) ++
  (if ts.has_color then
    ircCOLOR :: (match ts.color with
      | some c => ircColorCtrl c
      | none => [])
  else [])

/-- IRC.py `IRCHandle.formatRichText`: empty-text runs are skipped, normal
runs are emitted verbatim, non-normal runs get the control prefix and a
trailing reset. -/
def formatRichText : RichText → Str
  | [] => []
  | (ts, t) :: rest =>
    if t = [] then formatRichText rest
    else if ts.is_normal then t ++ formatRichText rest
    else ctrlOf ts ++ t ++ ircRESET :: formatRichText rest

end IRCHandle

/-! ### textformat.py: inbound IRC parser (not in the sources) -/

/-- Color-scanning mode of the parser: `text` is ordinary scanning, the other
constructors remember how much of a color control sequence has been read. -/
inductive CMode where
  | text : CMode
  | c0 : CMode
  | c1 : Nat → CMode
  | c2 : Nat → CMode
  | cComma : Nat → CMode
  | cb1 : Nat → Nat → CMode
deriving DecidableEq, Repr

/-- Parser state: current style accumulator, text of the open run, finished
runs, and the color-scanning mode. -/
structure PState where
  style : TextStyle := {}
  cur : Str := []
  acc : RichText := []
  mode : CMode := .text
deriving DecidableEq, Repr

namespace TextFormatter

/-- Close the open run, keeping it only if its text is nonempty. -/
def pushRun (st : PState) : RichText :=
  if st.cur = [] then st.acc else st.acc ++ [(st.style, st.cur)]

/-- Start a new run boundary with a new current style. -/
def boundary (st : PState) (sty : TextStyle) : PState :=
  { style := sty, cur := [], acc := pushRun st, mode := .text }

/-- A completed color control sequence sets the color and starts a new run. -/
def completeColor (st : PState) (fg : Nat) (bg : Option Nat) : PState :=
  boundary st { st.style with color := some ⟨fg, bg⟩ }

/-- One parsing step in ordinary text mode: control characters toggle or set
one attribute of the accumulator and start a new run; a reset clears the
accumulator; a color control enters color scanning; anything else is text. -/
def textStep (st : PState) (c : Char) : PState :=
  if c = ircBOLD then boundary st { st.style with bold := !st.style.bold }
  else if c = ircITALIC then boundary st { st.style with italic := !st.style.italic }
  else if c = ircUNDERLINE then boundary st { st.style with underline := !st.style.underline }
  else if c = ircRESET then boundary st {}
  else if c = ircCOLOR then { st with mode := .c0 }
  else { st with cur := st.cur ++ [c] }

/-- One parsing step.  Color codes consume one or two decimal digit groups
(foreground, optional comma and background); a malformed sequence is treated
as literal text. -/
def parseStep (st : PState) (c : Char) : PState :=
  match st.mode with
  | .text => textStep st c
  | .c0 =>
    if c.isDigit then { st with mode := .c1 (c.toNat - 48) }
    else textStep { st with cur := st.cur ++ [ircCOLOR], mode := .text } c
  | .c1 fg =>
    if c.isDigit then { st with mode := .c2 (fg * 10 + (c.toNat - 48)) }
    else if c = ',' then { st with mode := .cComma fg }
    else textStep (completeColor st fg none) c
  | .c2 fg =>
    if c = ',' then { st with mode := .cComma fg }
    else textStep (completeColor st fg none) c
  | .cComma fg =>
    if c.isDigit then { st with mode := .cb1 fg (c.toNat - 48) }
    else textStep { completeColor st fg none with cur := [','] } c
  | .cb1 fg b =>
    if c.isDigit then completeColor st fg (some (b * 10 + (c.toNat - 48)))
    else textStep (completeColor st fg (some b)) c

/-- Resolve a pending color mode at end of input. -/
def flushMode (st : PState) : PState :=
  match st.mode with
  | .text => st
  | .c0 => { st with cur := st.cur ++ [ircCOLOR], mode := .text }
  | .c1 fg => completeColor st fg none
  | .c2 fg => completeColor st fg none
  | .cComma fg => { completeColor st fg none with cur := [','] }
  | .cb1 fg b => completeColor st fg (some b)

/-- Modelled from the spec: `TextFormatter.parseIRC` (textformat.py is not in
the sources): a single left-to-right scan maintaining a current-style
accumulator; a string with no control codes yields one normal run. -/
def parseIRC (s : Str) : RichText :=
  let st := flushMode (s.foldl parseStep {})
  st.acc ++ [(st.style, st.cur)]

end TextFormatter

/-! ### telegram.py: flat HTML renderer -/

/-- Modelled from the Python standard library `html.escape` (with the default
`quote=True`): five sequential replacement passes, ampersand first. -/
def htmlEscape (s : Str) : Str :=
  replaceRules
    [ ('&', "&amp;".toList), ('<', "&lt;".toList), ('>', "&gt;".toList),
      ('"', "&quot;".toList), (apostrophe, "&#x27;".toList) ] s

namespace Telegram

/-- telegram.py `Telegram.formatRichText(rich_text, escape=True)`: per run,
optionally HTML-escape the text, then bold wins, else italic, else the text
is emitted plain; nothing is skipped and no other style is rendered. -/
def formatRichText (escape : Bool) : RichText → Str
  | [] => []
  | (ts, t) :: rest =>
    let t := if escape then htmlEscape t else t
    (if ts.is_bold then "<b>".toList ++ t ++ "</b>".toList
     else if ts.is_italic then "<i>".toList ++ t ++ "</i>".toList
     else t) ++ formatRichText escape rest

end Telegram

/-! ### DiscourseBabble.py: BBCode renderer -/

/-- DiscourseBabble.py `IRC_COLOR_RGB`: the fixed 17-entry palette. -/
def IRC_COLOR_RGB : List Str :=
  [ "#ffffff".toList, "#000000".toList, "#00007f".toList, "#009300".toList,
    "#ff0000".toList, "#7f0000".toList, "#9c009c".toList, "#fc7f00".toList,
    "#ffff00".toList, "#00fc00".toList, "#009300".toList, "#00ffff".toList,
    "#0000fc".toList, "#ff00ff".toList, "#7f7f7f".toList, "#d2d2d2".toList,
    "#888".toList ]

namespace DiscourseBabbleHandle

/-- DiscourseBabble.py `formatRichText`'s local `bold`. -/
def boldW (ts : TextStyle) (t : Str) : Str :=
  if !ts.is_bold then t else "[b]".toList ++ t ++ "[/b]".toList

/-- DiscourseBabble.py `formatRichText`'s local `italic`. -/
def italicW (ts : TextStyle) (t : Str) : Str :=
  if !ts.is_italic then t else "[i]".toList ++ t ++ "[/i]".toList

/-- DiscourseBabble.py `formatRichText`'s local `underline`. -/
def underlineW (ts : TextStyle) (t : Str) : Str :=
  if !ts.is_underline then t else "[u]".toList ++ t ++ "[/u]".toList

/-- DiscourseBabble.py `formatRichText`'s local `fgcolor`; the palette lookup
`IRC_COLOR_RGB[color]` raises `IndexError` out of range, rendered as `none`. -/
def fgcolorW (t : Str) (color : Nat) : Option Str :=
  (IRC_COLOR_RGB[color]?).map
    (fun rgb => "[color=".toList ++ rgb ++ "]".toList ++ t ++ "[/color]".toList)

/-- DiscourseBabble.py `formatRichText`'s local `bgcolor`. -/
def bgcolorW (t : Str) (color : Nat) : Option Str :=
  (IRC_COLOR_RGB[color]?).map
    (fun rgb => "[bgcolor=".toList ++ rgb ++ "]".toList ++ t ++ "[/bgcolor]".toList)

/-- DiscourseBabble.py `formatRichText`'s local `color`:
`bgcolor(fgcolor(text, fg), bg)` when the background is truthy, else
`fgcolor(text, fg)`. -/
def colorW (ts : TextStyle) (t : Str) : Option Str :=
  if ts.has_color then
    match ts.color with
    | some c =>
      if bgTruthy c.bg then (fgcolorW t c.fg).bind (fun i => bgcolorW i (c.bg.getD 0))
      else fgcolorW t c.fg
    | none => some t
  else some t

/-- One non-normal run of DiscourseBabble.py `formatRichText`:
`underline(italic(bold(color(text))))`. -/
def runW (ts : TextStyle) (t : Str) : Option Str :=
  (colorW ts t).map (fun x => underlineW ts (italicW ts (boldW ts x)))

/-- DiscourseBabble.py `DiscourseBabbleHandle.formatRichText`: empty runs are
skipped, normal runs are emitted verbatim, other runs are wrapped. -/
def formatRichText : RichText → Option Str
  | [] => some []
  | (ts, t) :: rest =>
    if t = [] then formatRichText rest
    else if ts.is_normal then (formatRichText rest).map (fun r => t ++ r)
    else (runW ts t).bind (fun piece => (formatRichText rest).map (fun r => piece ++ r))

end DiscourseBabbleHandle

/-! ### IRC.py: message construction -/

/-- models.py `ChannelType` (not in the sources), restricted to the tags the
claims mention. -/
inductive ChannelType where
  | IRC | Telegram | XMPP | DiscourseBabble
deriving DecidableEq, Repr

/-- Modelled from the spec: the `Message` fields relevant to the claims
(models.py is not in the sources). -/
structure Message where
  channel : ChannelType
  sender : Str
  receiver : Str
  content : Str
  rich_text : Option RichText := none
deriving Repr

/-- IRC.py `IRCHandle.on_privmsg`: parse the incoming line, project the plain
content, and drop the rich text when it is a single normal run.
`on_pubmsg` delegates to this function unchanged. -/
def ircOnPrivmsg (nick target arg : Str) : Message :=
  let rt := TextFormatter.parseIRC arg
  let content := RichText.toPlain rt
  let rich : Option RichText :=
    match rt with
    | [(ts, _)] => if ts.is_normal then none else some rt
    | _ => some rt
  { channel := ChannelType.IRC, sender := nick, receiver := target,
    content := content, rich_text := rich }

/-- IRC.py `IRCHandle.on_pubmsg` simply calls `on_privmsg`. -/
def ircOnPubmsg (nick target arg : Str) : Message := ircOnPrivmsg nick target arg

end Fishroom

namespace Fishroom

/-! ### Specification-side escaping tables -/

/-- The per-character description of `md_escape` given by the spec: backslash
escape the Markdown-significant characters, entity-substitute the angle
brackets, leave everything else alone. -/
def mdEscChar (c : Char) : Str :=
  if c = '<' then "&lt;".toList
  else if c = '>' then "&gt;".toList
  else if c = '*' ∨ c = '#' ∨ c = '/' ∨ c = '(' ∨ c = ')' ∨ c = '[' ∨ c = ']' ∨
      c = '_' ∨ c = backtick then '\\' :: [c]
  else [c]

/-- The per-character description of HTML escaping: the five HTML
metacharacters become entities, everything else is left alone. -/
def escChar (c : Char) : Str :=
  if c = '&' then "&amp;".toList
  else if c = '<' then "&lt;".toList
  else if c = '>' then "&gt;".toList
  else if c = '"' then "&quot;".toList
  else if c = apostrophe then "&#x27;".toList
  else [c]

/-- The flat per-run wrapper the spec gives for Telegram: bold wins, else
italic, else the text is emitted plain; color and underline do not appear. -/
def tgWrap (ts : TextStyle) (t : Str) : Str :=
  if ts.is_bold then "<b>".toList ++ t ++ "</b>".toList
  else if ts.is_italic then "<i>".toList ++ t ++ "</i>".toList
  else t

/-! ### Lemmas about character-wise substitution -/

theorem strMap_append (f : Char → Str) (a b : Str) :
    strMap f (a ++ b) = strMap f a ++ strMap f b := by
  induction a with
  | nil => rfl
  | cons c a ih => simp [strMap, ih]

theorem replaceChar_append (p : Char) (r : Str) (a b : Str) :
    replaceChar p r (a ++ b) = replaceChar p r a ++ replaceChar p r b :=
  strMap_append ..

theorem replaceRules_cons (r : Char × Str) (rs : List (Char × Str)) (t : Str) :
    replaceRules (r :: rs) t = replaceRules rs (replaceChar r.1 r.2 t) := rfl

theorem replaceRules_append (rs : List (Char × Str)) (a b : Str) :
    replaceRules rs (a ++ b) = replaceRules rs a ++ replaceRules rs b := by
  induction rs generalizing a b with
  | nil => rfl
  | cons r rs ih => rw [replaceRules_cons, replaceChar_append, ih]; rfl

theorem replaceRules_md_single (c : Char) :
    replaceRules md_replacements [c] = mdEscChar c := by
  by_cases h1 : c = '*'
  · subst h1; decide
  by_cases h2 : c = '#'
  · subst h2; decide
  by_cases h3 : c = '/'
  · subst h3; decide
  by_cases h4 : c = '('
  · subst h4; decide
  by_cases h5 : c = ')'
  · subst h5; decide
  by_cases h6 : c = '['
  · subst h6; decide
  by_cases h7 : c = ']'
  · subst h7; decide
  by_cases h8 : c = '<'
  · subst h8; decide
  by_cases h9 : c = '>'
  · subst h9; decide
  by_cases h10 : c = '_'
  · subst h10; decide
  by_cases h11 : c = backtick
  · subst h11; decide
  simp [replaceRules, md_replacements, List.foldl, replaceChar, strMap, mdEscChar,
    h1, h2, h3, h4, h5, h6, h7, h8, h9, h10, h11]

theorem md_escape_eq_strMap (s : Str) : md_escape s = strMap mdEscChar s := by
  induction s with
  | nil => rfl
  | cons c s ih =>
    have : md_escape (c :: s) = replaceRules md_replacements ([c] ++ s) := rfl
    rw [md_escape] at ih
    rw [this, replaceRules_append, ih, replaceRules_md_single]
    rfl

theorem htmlEscape_single (c : Char) : htmlEscape [c] = escChar c := by
  by_cases h1 : c = '&'
  · subst h1; decide
  by_cases h2 : c = '<'
  · subst h2; decide
  by_cases h3 : c = '>'
  · subst h3; decide
  by_cases h4 : c = '"'
  · subst h4; decide
  by_cases h5 : c = apostrophe
  · subst h5; decide
  simp [htmlEscape, replaceRules, List.foldl, replaceChar, strMap, escChar,
    h1, h2, h3, h4, h5]

theorem htmlEscape_eq_strMap (s : Str) : htmlEscape s = strMap escChar s := by
  induction s with
  | nil => rfl
  | cons c s ih =>
    have : htmlEscape (c :: s) = htmlEscape ([c] ++ s) := rfl
    rw [this, htmlEscape, replaceRules_append, ← htmlEscape, ← htmlEscape, ih,
      htmlEscape_single]
    rfl

/-! ### Lemmas about tag stripping -/

theorem hasTagB_cons (c : Char) (r : Str) :
    hasTagB (c :: r) =
      (((c == '<') && !(r.head? == some '>') && r.contains '>') || hasTagB r) := rfl

theorem hasTagB_of_no_gt (l : Str) (h : '>' ∉ l) : hasTagB l = false := by
  induction l with
  | nil => rfl
  | cons c r ih =>
    rw [hasTagB_cons, ih (fun hm => h (List.mem_cons_of_mem _ hm))]
    simp
    intro _ _
    exact fun hm => h (List.mem_cons_of_mem _ hm)

theorem hasTagB_stripAux (s : Str) :
    hasTagB (stripAux none s) = false ∧
      (∀ pend, '>' ∉ pend → hasTagB (stripAux (some pend) s) = false) := by
  induction s with
  | nil =>
    refine ⟨rfl, fun pend h => ?_⟩
    show hasTagB ('<' :: pend) = false
    rw [hasTagB_cons, hasTagB_of_no_gt pend h]
    simp
    intro _
    exact h
  | cons c r ih =>
    constructor
    · show hasTagB (if c = '<' then stripAux (some []) r else c :: stripAux none r) = false
      by_cases h : c = '<'
      · simpa [h] using ih.2 [] (by simp)
      · rw [if_neg h, hasTagB_cons, ih.1]
        simp [h]
    · intro pend hp
      show hasTagB
        (if c = '>' then
          if pend = [] then '<' :: '>' :: stripAux none r else stripAux none r
        else stripAux (some (pend ++ [c])) r) = false
      by_cases h : c = '>'
      · rw [if_pos h]
        by_cases hp0 : pend = []
        · rw [if_pos hp0, hasTagB_cons, hasTagB_cons, ih.1]
          simp
        · rw [if_neg hp0]; exact ih.1
      · rw [if_neg h]
        refine ih.2 _ ?_
        intro hm
        rcases List.mem_append.mp hm with hm | hm
        · exact hp hm
        · simp at hm; exact h hm.symm

/-! ### Claims C5, C6, C10: xss.py -/

/-- C5: `cooked_unescape` removes every substring matching `<[^>]+>` (after
stripping, no such substring remains) and HTML-unescapes what is left; in
particular it maps `"<p>Hi &amp; bye</p>"` to `"Hi & bye"`. -/
theorem claim_C5_cooked_unescape :
    (∀ s : Str, hasTagB (stripTags s) = false) ∧
      cooked_unescape "<p>Hi &amp; bye</p>".toList = "Hi & bye".toList :=
  ⟨fun s => (hasTagB_stripAux s).1, by decide⟩

/-- C6: `md_escape` backslash-escapes each Markdown-significant character and
entity-substitutes the angle brackets, character by character; in particular
`md_escape "a*b_c"` is the string `a\*b\_c` (seven characters: the claim's
own enumeration; its "five-character" count is a miscount of that
enumeration). -/
theorem claim_C6_md_escape :
    (∀ s : Str, md_escape s = strMap mdEscChar s) ∧
      md_escape "a*b_c".toList = "a\\*b\\_c".toList :=
  ⟨md_escape_eq_strMap, by decide⟩

/-- C10: tags are stripped before entities are unescaped, so entity-encoded
markup survives verbatim: `cooked_unescape "&lt;b&gt;hi&lt;/b&gt;"` is
`"<b>hi</b>"`; more generally the stripping pass leaves any `<`-free string
(hence any entity-encoded fragment) unchanged. -/
theorem claim_C10_entities_survive :
    cooked_unescape "&lt;b&gt;hi&lt;/b&gt;".toList = "<b>hi</b>".toList ∧
      (∀ s : Str, (∀ c ∈ s, c ≠ '<') → stripTags s = s) := by
  refine ⟨by decide, fun s h => ?_⟩
  induction s with
  | nil => rfl
  | cons c r ih =>
    show (if c = '<' then stripAux (some []) r else c :: stripAux none r) = c :: r
    rw [if_neg (h c (List.mem_cons_self c r))]
    exact congrArg (c :: ·) (ih fun x hx => h x (List.mem_cons_of_mem _ hx))

/-- Witness for the universally quantified part of C10 at a concrete
entity-encoded input. -/
theorem claim_C10_entities_survive_witness :
    (∀ c ∈ "&lt;b&gt;".toList, c ≠ '<') ∧
      stripTags "&lt;b&gt;".toList = "&lt;b&gt;".toList :=
  ⟨by decide, claim_C10_entities_survive.2 _ (by decide)⟩

end Fishroom

namespace Fishroom

/-! ### Claims C3, C7, C8: the Telegram renderer -/

theorem tg_cons (esc : Bool) (ts : TextStyle) (t : Str) (rest : RichText) :
    Telegram.formatRichText esc ((ts, t) :: rest) =
      tgWrap ts (if esc then htmlEscape t else t) ++ Telegram.formatRichText esc rest := by
  rw [Telegram.formatRichText, tgWrap]

theorem irc_cons (ts : TextStyle) (t : Str) (rest : RichText) :
    IRCHandle.formatRichText ((ts, t) :: rest) =
      (if t = [] then []
       else if ts.is_normal then t
       else IRCHandle.ctrlOf ts ++ t ++ [ircRESET]) ++ IRCHandle.formatRichText rest := by
  rw [IRCHandle.formatRichText]
  split
  · rfl
  · split <;> simp [List.append_assoc]

theorem babble_cons (ts : TextStyle) (t : Str) (rest : RichText) :
    DiscourseBabbleHandle.formatRichText ((ts, t) :: rest) =
      (if t = [] then DiscourseBabbleHandle.formatRichText rest
       else if ts.is_normal then
         (DiscourseBabbleHandle.formatRichText rest).map (fun r => t ++ r)
       else (DiscourseBabbleHandle.runW ts t).bind
         (fun piece => (DiscourseBabbleHandle.formatRichText rest).map
           (fun r => piece ++ r))) := rfl

/-- C8: for the Telegram HTML target, the five HTML metacharacters in each
run's text are replaced by entities, the escaping is applied to the run text
before the style wrappers are added, and the emitted wrappers themselves stay
unescaped literal markup. -/
theorem claim_C8_telegram_escaping :
    (∀ rt : RichText,
      Telegram.formatRichText true rt =
        (rt.map (fun p => tgWrap p.1 (strMap escChar p.2))).flatten) ∧
      strMap escChar "&<>\"'".toList = "&amp;&lt;&gt;&quot;&#x27;".toList := by
  refine ⟨fun rt => ?_, by decide⟩
  induction rt with
  | nil => rfl
  | cons p rest ih =>
    obtain ⟨ts, t⟩ := p
    rw [tg_cons, ih, List.map_cons, List.flatten_cons, if_pos rfl, htmlEscape_eq_strMap]

/-- C3 (amended): the flat Telegram renderer resolves each run by the fixed
precedence bold, then italic, then plain text; color and underline are never
rendered at all and do not influence the output. -/
theorem claim_C3_flat_precedence :
    (∀ (esc : Bool) (rt : RichText),
      Telegram.formatRichText esc rt =
        (rt.map (fun p => tgWrap p.1 (if esc then htmlEscape p.2 else p.2))).flatten) ∧
      (∀ (esc b i u1 u2 : Bool) (c1 c2 : Option Color) (t : Str),
        Telegram.formatRichText esc [(⟨b, i, u1, c1⟩, t)] =
          Telegram.formatRichText esc [(⟨b, i, u2, c2⟩, t)]) := by
  constructor
  · intro esc rt
    induction rt with
    | nil => rfl
    | cons p rest ih =>
      obtain ⟨ts, t⟩ := p
      rw [tg_cons, ih, List.map_cons, List.flatten_cons]
  · intro esc b i u1 u2 c1 c2 t
    rw [tg_cons, tg_cons]
    rfl

/-- C3 (counterexample): a colorful but otherwise plain run is emitted as
bare text by the Telegram renderer — identical to the rendering of a normal
run — so it is not "rendered with its color" as the claim states. -/
theorem claim_C3_counterexample :
    Telegram.formatRichText true [({ color := some ⟨4, none⟩ }, "x".toList)] = "x".toList ∧
      Telegram.formatRichText true [({ color := some ⟨4, none⟩ }, "x".toList)] =
        Telegram.formatRichText true [({}, "x".toList)] := by decide

/-- C7 (counterexample): the Telegram renderer does not skip empty-text runs;
an empty bold run emits its bare wrapper. -/
theorem claim_C7_counterexample :
    Telegram.formatRichText true [({ bold := true }, [])] = "<b></b>".toList ∧
      Telegram.formatRichText true [({ bold := true }, [])] ≠ [] := by decide

/-- C7 (amended): the IRC and BBCode renderers skip runs with empty text
entirely; the Telegram renderer skips only normal empty runs, and an empty
bold run emits its bare wrapper. -/
theorem claim_C7_empty_runs :
    (∀ (l1 l2 : RichText) (ts : TextStyle),
      IRCHandle.formatRichText (l1 ++ (ts, []) :: l2) = IRCHandle.formatRichText (l1 ++ l2)) ∧
      (∀ (l1 l2 : RichText) (ts : TextStyle),
        DiscourseBabbleHandle.formatRichText (l1 ++ (ts, []) :: l2) =
          DiscourseBabbleHandle.formatRichText (l1 ++ l2)) ∧
      (∀ (esc : Bool) (l1 l2 : RichText) (ts : TextStyle), ts.is_normal = true →
        Telegram.formatRichText esc (l1 ++ (ts, []) :: l2) =
          Telegram.formatRichText esc (l1 ++ l2)) ∧
      Telegram.formatRichText true [({ bold := true }, [])] ≠ [] := by
  refine ⟨fun l1 l2 ts => ?_, fun l1 l2 ts => ?_, fun esc l1 l2 ts h => ?_, by decide⟩
  · induction l1 with
    | nil => rw [List.nil_append, List.nil_append, irc_cons, if_pos rfl, List.nil_append]
    | cons p l1 ih =>
      obtain ⟨ts', t'⟩ := p
      rw [List.cons_append, List.cons_append, irc_cons, irc_cons, ih]
  · induction l1 with
    | nil => rw [List.nil_append, List.nil_append, babble_cons, if_pos rfl]
    | cons p l1 ih =>
      obtain ⟨ts', t'⟩ := p
      rw [List.cons_append, List.cons_append, babble_cons, babble_cons, ih]
  · have hb : ts.is_bold = false := by
      simp [TextStyle.is_normal] at h
      simp [TextStyle.is_bold, h.1.1.1]
    have hi : ts.is_italic = false := by
      simp [TextStyle.is_normal] at h
      simp [TextStyle.is_italic, h.1.1.2]
    induction l1 with
    | nil =>
      rw [List.nil_append, List.nil_append, tg_cons, tgWrap, hb, hi]
      cases esc <;> simp [htmlEscape, replaceRules, replaceChar, strMap]
    | cons p l1 ih =>
      obtain ⟨ts', t'⟩ := p
      rw [List.cons_append, List.cons_append, tg_cons, tg_cons, ih]

/-- Witness for the hypothesis-bearing conjunct of the C7 theorem:
a normal empty run inserted into a concrete rich text changes nothing. -/
theorem claim_C7_empty_runs_witness :
    ({ bold := false } : TextStyle).is_normal = true ∧
      Telegram.formatRichText true
          ([({ bold := true }, "a".toList)] ++ ({ bold := false }, []) :: []) =
        Telegram.formatRichText true ([({ bold := true }, "a".toList)] ++ []) :=
  ⟨by decide,
    claim_C7_empty_runs.2.2.1 true [({ bold := true }, "a".toList)] [] { bold := false }
      (by decide)⟩

end Fishroom

namespace Fishroom

/-! ### Claims C2, C9: the BBCode renderer -/

/-- The nesting order the code actually uses, written specification-side:
color innermost, then bold, then italic, then underline outermost. -/
def babbleNestSpec (ts : TextStyle) (core : Str) : Str :=
  let b := if ts.bold then "[b]".toList ++ core ++ "[/b]".toList else core
  let i := if ts.italic then "[i]".toList ++ b ++ "[/i]".toList else b
  if ts.underline then "[u]".toList ++ i ++ "[/u]".toList else i

/-- Specification-side color core: a foreground-only color is one wrapper,
foreground plus truthy background is the background wrapper around the
foreground wrapper; a failed palette lookup is `none`. -/
def babbleColorSpec (ts : TextStyle) (t : Str) : Option Str :=
  match ts.color with
  | none => some t
  | some c =>
    if bgTruthy c.bg then
      match IRC_COLOR_RGB[c.fg]?, IRC_COLOR_RGB[c.bg.getD 0]? with
      | some f, some b =>
        some ("[bgcolor=".toList ++ b ++ "]".toList ++
          ("[color=".toList ++ f ++ "]".toList ++ t ++ "[/color]".toList) ++
          "[/bgcolor]".toList)
      | _, _ => none
    else
      (IRC_COLOR_RGB[c.fg]?).map
        (fun f => "[color=".toList ++ f ++ "]".toList ++ t ++ "[/color]".toList)

/-- The per-run emission of the specification-side renderer: normal runs
verbatim, the rest wrapped in the fixed nesting order of `babbleNestSpec`. -/
def babbleRunSpec (p : TextStyle × Str) : Option Str :=
  if p.1.is_normal then some p.2
  else (babbleColorSpec p.1 p.2).map (babbleNestSpec p.1)

/-- Specification-side BBCode renderer body: drop empty runs, emit each run
through `babbleRunSpec`, concatenate. -/
def babbleRenderSpec (rt : RichText) : Option Str :=
  ((rt.filter (fun p => !p.2.isEmpty)).mapM babbleRunSpec).map List.flatten

theorem colorW_eq_spec (ts : TextStyle) (t : Str) :
    DiscourseBabbleHandle.colorW ts t = babbleColorSpec ts t := by
  cases hc : ts.color with
  | none =>
    simp [DiscourseBabbleHandle.colorW, babbleColorSpec, TextStyle.has_color, hc]
  | some c =>
    simp only [DiscourseBabbleHandle.colorW, babbleColorSpec, TextStyle.has_color, hc,
      Option.isSome_some, if_true]
    by_cases hb : bgTruthy c.bg
    · simp only [hb, if_true]
      cases hf : IRC_COLOR_RGB[c.fg]? with
      | none => simp [DiscourseBabbleHandle.fgcolorW, hf]
      | some f =>
        cases hbg : IRC_COLOR_RGB[c.bg.getD 0]? with
        | none =>
          simp [DiscourseBabbleHandle.fgcolorW, DiscourseBabbleHandle.bgcolorW, hf, hbg]
        | some b =>
          simp [DiscourseBabbleHandle.fgcolorW, DiscourseBabbleHandle.bgcolorW, hf, hbg,
            List.append_assoc]
    · simp only [hb, if_false, Bool.false_eq_true]
      simp [DiscourseBabbleHandle.fgcolorW]

theorem runW_eq_spec (ts : TextStyle) (t : Str) :
    DiscourseBabbleHandle.runW ts t = (babbleColorSpec ts t).map (babbleNestSpec ts) := by
  rw [DiscourseBabbleHandle.runW, colorW_eq_spec]
  cases babbleColorSpec ts t with
  | none => rfl
  | some core =>
    refine congrArg some ?_
    cases hbo : ts.bold <;> cases hit : ts.italic <;> cases hun : ts.underline <;>
      simp [DiscourseBabbleHandle.boldW, DiscourseBabbleHandle.italicW,
        DiscourseBabbleHandle.underlineW, babbleNestSpec, TextStyle.is_bold,
        TextStyle.is_italic, TextStyle.is_underline, hbo, hit, hun]

/-- C2 (amended): the BBCode renderer emits style wrappers in the fixed
nesting order underline outermost, then italic, then bold, then color
innermost (background wrapper outside foreground wrapper), as captured by
the specification-side renderer `babbleRenderSpec`. -/
theorem claim_C2_nesting_order :
    ∀ rt : RichText, DiscourseBabbleHandle.formatRichText rt = babbleRenderSpec rt := by
  intro rt
  induction rt with
  | nil => rfl
  | cons p rest ih =>
    obtain ⟨ts, t⟩ := p
    by_cases ht : t = []
    · subst ht
      rw [babble_cons, if_pos rfl, ih]
      simp [babbleRenderSpec, List.filter_cons]
    · rw [babble_cons, if_neg ht, ih]
      have hne : (!List.isEmpty t) = true := by
        cases t with
        | nil => exact absurd rfl ht
        | cons c r => rfl
      conv_rhs => rw [babbleRenderSpec]
      rw [List.filter_cons, if_pos hne, List.mapM_cons]
      by_cases hn : ts.is_normal = true
      · rw [if_pos hn, show babbleRunSpec (ts, t) = some t from by rw [babbleRunSpec, if_pos hn]]
        rw [babbleRenderSpec]
        cases (rest.filter (fun p => !p.2.isEmpty)).mapM babbleRunSpec with
        | none => rfl
        | some xs => simp [List.flatten_cons]
      · rw [if_neg hn, runW_eq_spec,
          show babbleRunSpec (ts, t) = (babbleColorSpec ts t).map (babbleNestSpec ts) from by
            rw [babbleRunSpec, if_neg hn]]
        rw [babbleRenderSpec]
        cases babbleColorSpec ts t with
        | none => rfl
        | some core =>
          cases (rest.filter (fun p => !p.2.isEmpty)).mapM babbleRunSpec with
          | none => rfl
          | some xs => simp [List.flatten_cons]

/-- C2 (counterexample): a bold colored run is wrapped bold outside and color
inside, not in the claimed color-outermost order. -/
theorem claim_C2_counterexample :
    DiscourseBabbleHandle.formatRichText
        [({ bold := true, color := some ⟨2, none⟩ }, "x".toList)] =
      some "[b][color=#00007f]x[/color][/b]".toList ∧
      "[b][color=#00007f]x[/color][/b]".toList ≠
        "[color=#00007f][b]x[/b][/color]".toList := by decide

theorem babbleColorSpec_isSome (ts : TextStyle) (t : Str)
    (h : ∀ c ∈ ts.color, c.fg ≤ 16 ∧ ∀ b ∈ c.bg, b ≤ 16) :
    (babbleColorSpec ts t).isSome = true := by
  cases hc : ts.color with
  | none => simp [babbleColorSpec, hc]
  | some c =>
    obtain ⟨hfg, hbg⟩ := h c (by simp [hc])
    have hlen : IRC_COLOR_RGB.length = 17 := by decide
    have hf : ∃ f, IRC_COLOR_RGB[c.fg]? = some f := by
      cases hf : IRC_COLOR_RGB[c.fg]? with
      | none => rw [List.getElem?_eq_none_iff, hlen] at hf; omega
      | some f => exact ⟨f, rfl⟩
    obtain ⟨f, hf⟩ := hf
    cases hb : c.bg with
    | none => simp [babbleColorSpec, hc, hb, bgTruthy, hf]
    | some b =>
      have hble : b ≤ 16 := hbg b (by simp [hb])
      have hbv : ∃ g, IRC_COLOR_RGB[b]? = some g := by
        cases hg : IRC_COLOR_RGB[b]? with
        | none => rw [List.getElem?_eq_none_iff, hlen] at hg; omega
        | some g => exact ⟨g, rfl⟩
      obtain ⟨g, hg⟩ := hbv
      by_cases hz : b = 0
      · subst hz
        simp [babbleColorSpec, hc, hb, bgTruthy, hf]
      · simp [babbleColorSpec, hc, hb, bgTruthy, hz, hf, hg]

theorem runW_isSome (ts : TextStyle) (t : Str)
    (h : ∀ c ∈ ts.color, c.fg ≤ 16 ∧ ∀ b ∈ c.bg, b ≤ 16) :
    (DiscourseBabbleHandle.runW ts t).isSome = true := by
  rw [runW_eq_spec]
  cases hv : babbleColorSpec ts t with
  | none =>
    have := babbleColorSpec_isSome ts t h
    rw [hv] at this
    simp at this
  | some core => rfl

/-- C9: the palette is a fixed 17-entry table; rendering any rich text whose
color indices all lie in `[0, 16]` never hits an out-of-range lookup, and
`mkColor` accepts exactly the in-range indices, so an out-of-range index is
a construction-time error, not a render-time one. -/
theorem claim_C9_palette :
    IRC_COLOR_RGB.length = 17 ∧
      (∀ rt : RichText,
        (∀ p ∈ rt, ∀ c ∈ p.1.color, c.fg ≤ 16 ∧ ∀ b ∈ c.bg, b ≤ 16) →
        (DiscourseBabbleHandle.formatRichText rt).isSome = true) ∧
      (∀ (fg : Nat) (bg : Option Nat),
        (mkColor fg bg).isSome = true ↔ (fg ≤ 16 ∧ ∀ b ∈ bg, b ≤ 16)) := by
  refine ⟨by decide, fun rt h => ?_, fun fg bg => ?_⟩
  · induction rt with
    | nil => rfl
    | cons p rest ih =>
      obtain ⟨ts, t⟩ := p
      have hrest := ih fun q hq c hc => h q (List.mem_cons_of_mem _ hq) c hc
      have hts := h (ts, t) (List.mem_cons_self _ _)
      simp only [DiscourseBabbleHandle.formatRichText]
      by_cases ht : t = []
      · simpa [ht] using hrest
      · by_cases hn : ts.is_normal = true
        · simp [ht, hn, Option.isSome_map, hrest]
        · have hr := runW_isSome ts t hts
          cases hw : DiscourseBabbleHandle.runW ts t with
          | none => rw [hw] at hr; simp at hr
          | some piece => simp [ht, hn, hw, Option.isSome_map, hrest]
  · rw [mkColor]
    split <;> simp_all

/-- Witness for C9's render-safety conjunct at a concrete valid rich text. -/
theorem claim_C9_palette_witness :
    (∀ p ∈ ([({ bold := true, color := some ⟨2, some 16⟩ }, "x".toList)] : RichText),
      ∀ c ∈ p.1.color, c.fg ≤ 16 ∧ ∀ b ∈ c.bg, b ≤ 16) ∧
      (DiscourseBabbleHandle.formatRichText
        [({ bold := true, color := some ⟨2, some 16⟩ }, "x".toList)]).isSome = true :=
  ⟨by decide, claim_C9_palette.2.1 _ (by decide)⟩

end Fishroom

namespace Fishroom

/-! ### Claim C4: the IRC message construction invariant -/

/-- C4: every `Message` the IRC adapter constructs from an incoming private
or public message satisfies: if `rich_text` is present then its plain
projection equals `content`; and `on_pubmsg` constructs exactly what
`on_privmsg` constructs. -/
theorem claim_C4_irc_message_invariant :
    (∀ (nick target arg : Str) (rt : RichText),
      (ircOnPrivmsg nick target arg).rich_text = some rt →
      RichText.toPlain rt = (ircOnPrivmsg nick target arg).content) ∧
      (∀ nick target arg : Str, ircOnPubmsg nick target arg = ircOnPrivmsg nick target arg) := by
  refine ⟨fun nick target arg rt h => ?_, fun _ _ _ => rfl⟩
  have hone : (ircOnPrivmsg nick target arg).rich_text = none ∨
      (ircOnPrivmsg nick target arg).rich_text = some (TextFormatter.parseIRC arg) := by
    rw [ircOnPrivmsg]
    cases hp : TextFormatter.parseIRC arg with
    | nil => right; rfl
    | cons p rest =>
      obtain ⟨ts, t⟩ := p
      cases rest with
      | nil =>
        by_cases hn : ts.is_normal = true
        · left; simp [hn]
        · right; simp [hn]
      | cons q rest2 => right; rfl
  have hc : (ircOnPrivmsg nick target arg).content =
      RichText.toPlain (TextFormatter.parseIRC arg) := rfl
  rcases hone with h0 | h0
  · rw [h0] at h; cases h
  · rw [h0] at h
    injection h with hh
    rw [hc, ← hh]

/-- Witness for C4 at a concrete incoming IRC line carrying bold markup. -/
theorem claim_C4_irc_message_invariant_witness :
    (ircOnPrivmsg "n".toList "#c".toList (ircBOLD :: "hi".toList)).rich_text =
      some [({ bold := true }, "hi".toList)] ∧
      RichText.toPlain [({ bold := true }, "hi".toList)] =
        (ircOnPrivmsg "n".toList "#c".toList (ircBOLD :: "hi".toList)).content :=
  ⟨by decide, claim_C4_irc_message_invariant.1 _ _ _ _ (by decide)⟩

end Fishroom

namespace Fishroom

/-! ### Claim C1: round trip through the IRC control-code format -/

open TextFormatter

/-- The plain-text projection of a parser state: finished runs then the open
run. -/
def plainS (st : PState) : Str := RichText.toPlain st.acc ++ st.cur

/-- The per-run hypotheses under which the IRC render/parse round trip
preserves plain text: no control bytes in the text, in-range color indices,
and a colored run's text must not begin with a digit or a comma (otherwise
the parser would absorb it into the color code). -/
def goodRun (p : TextStyle × Str) : Bool :=
  p.2.all (fun c => !ircCtrlChars.contains c) &&
  (match p.1.color with
   | none => true
   | some c =>
     decide (c.fg ≤ 16) &&
     (match c.bg with
      | none => true
      | some b => decide (b ≤ 16)) &&
     (match p.2.head? with
      | none => true
      | some h => !h.isDigit && !(h == ',')))

theorem toPlain_append (a b : RichText) :
    RichText.toPlain (a ++ b) = RichText.toPlain a ++ RichText.toPlain b := by
  simp [RichText.toPlain]

theorem toPlain_pushRun (st : PState) :
    RichText.toPlain (pushRun st) = RichText.toPlain st.acc ++ st.cur := by
  rw [pushRun]
  split
  · rename_i h
    simp [h]
  · simp [toPlain_append, RichText.toPlain]

theorem plainS_boundary (st : PState) (sty : TextStyle) :
    plainS (boundary st sty) = plainS st := by
  rw [plainS, plainS, boundary]
  simp [toPlain_pushRun]

/-! One-step reductions of the parser on the relevant characters. -/

theorem parseStep_BOLD (sty : TextStyle) (cur : Str) (acc : RichText) :
    parseStep ⟨sty, cur, acc, .text⟩ ircBOLD =
      boundary ⟨sty, cur, acc, .text⟩ { sty with bold := !sty.bold } := rfl

theorem parseStep_ITALIC (sty : TextStyle) (cur : Str) (acc : RichText) :
    parseStep ⟨sty, cur, acc, .text⟩ ircITALIC =
      boundary ⟨sty, cur, acc, .text⟩ { sty with italic := !sty.italic } := rfl

theorem parseStep_UNDERLINE (sty : TextStyle) (cur : Str) (acc : RichText) :
    parseStep ⟨sty, cur, acc, .text⟩ ircUNDERLINE =
      boundary ⟨sty, cur, acc, .text⟩ { sty with underline := !sty.underline } := rfl

theorem parseStep_RESET (sty : TextStyle) (cur : Str) (acc : RichText) :
    parseStep ⟨sty, cur, acc, .text⟩ ircRESET = boundary ⟨sty, cur, acc, .text⟩ {} := rfl

theorem parseStep_COLOR (sty : TextStyle) (cur : Str) (acc : RichText) :
    parseStep ⟨sty, cur, acc, .text⟩ ircCOLOR = ⟨sty, cur, acc, .c0⟩ := rfl

theorem textStep_plain (st : PState) (c : Char) (h : ircCtrlChars.contains c = false) :
    textStep st c = { st with cur := st.cur ++ [c] } := by
  simp only [ircCtrlChars, List.contains_cons, Bool.or_eq_false_iff, beq_eq_false_iff_ne,
    ne_eq, List.contains_nil] at h
  rw [textStep, if_neg (fun hh => h.1 hh), if_neg (fun hh => h.2.2.2.1 hh),
    if_neg (fun hh => h.2.2.2.2.1 hh), if_neg (fun hh => h.2.2.1 hh),
    if_neg (fun hh => h.2.1 hh)]

theorem parseStep_text (st : PState) (c : Char) (hm : st.mode = .text) :
    parseStep st c = textStep st c := by
  rw [parseStep, hm]

theorem foldl_plain (t : Str) (sty : TextStyle) (cur : Str) (acc : RichText)
    (h : t.all (fun c => !ircCtrlChars.contains c) = true) :
    List.foldl parseStep ⟨sty, cur, acc, .text⟩ t = ⟨sty, cur ++ t, acc, .text⟩ := by
  induction t generalizing cur with
  | nil => simp
  | cons c t ih =>
    rw [List.all_cons, Bool.and_eq_true] at h
    rw [List.foldl_cons, parseStep_text _ _ rfl,
      textStep_plain _ _ (by simpa using h.1)]
    rw [ih _ h.2]
    simp

theorem parseStep_plain (sty : TextStyle) (cur : Str) (acc : RichText) (c : Char)
    (hc : ircCtrlChars.contains c = false) :
    parseStep ⟨sty, cur, acc, .text⟩ c = ⟨sty, cur ++ [c], acc, .text⟩ := by
  rw [parseStep_text _ _ rfl, textStep_plain _ _ hc]

/-- Finishing a foreground-only color code on a character that is neither a
digit nor a comma: the color is set, a run boundary is made, and the
character becomes the first text of the new run (from one-digit mode). -/
theorem parseStep_c1_done (sty : TextStyle) (cur : Str) (acc : RichText) (fg : Nat)
    (c : Char) (hd : c.isDigit = false) (hcm : ¬c = ',')
    (hcc : ircCtrlChars.contains c = false) :
    parseStep ⟨sty, cur, acc, .c1 fg⟩ c =
      ⟨{ sty with color := some ⟨fg, none⟩ }, [c], pushRun ⟨sty, cur, acc, .c1 fg⟩, .text⟩ := by
  rw [parseStep]
  simp only [hd, Bool.false_eq_true, if_false, if_neg hcm]
  rw [textStep_plain _ _ hcc]
  rfl

/-- As `parseStep_c1_done`, from two-digit mode (any non-comma ends it here,
but only the non-digit non-comma case is needed). -/
theorem parseStep_c2_done (sty : TextStyle) (cur : Str) (acc : RichText) (fg : Nat)
    (c : Char) (hcm : ¬c = ',') (hcc : ircCtrlChars.contains c = false) :
    parseStep ⟨sty, cur, acc, .c2 fg⟩ c =
      ⟨{ sty with color := some ⟨fg, none⟩ }, [c], pushRun ⟨sty, cur, acc, .c2 fg⟩, .text⟩ := by
  rw [parseStep]
  simp only [if_neg hcm]
  rw [textStep_plain _ _ hcc]
  rfl

/-- Finishing a one-digit background group on a non-digit character. -/
theorem parseStep_cb1_done (sty : TextStyle) (cur : Str) (acc : RichText) (fg b : Nat)
    (c : Char) (hd : c.isDigit = false) (hcc : ircCtrlChars.contains c = false) :
    parseStep ⟨sty, cur, acc, .cb1 fg b⟩ c =
      ⟨{ sty with color := some ⟨fg, some b⟩ }, [c],
        pushRun ⟨sty, cur, acc, .cb1 fg b⟩, .text⟩ := by
  rw [parseStep]
  simp only [hd, Bool.false_eq_true, if_false]
  rw [textStep_plain _ _ hcc]
  rfl

theorem parseStep_comma_c1 (sty : TextStyle) (cur : Str) (acc : RichText) (fg : Nat) :
    parseStep ⟨sty, cur, acc, .c1 fg⟩ ',' = ⟨sty, cur, acc, .cComma fg⟩ := rfl

theorem parseStep_comma_c2 (sty : TextStyle) (cur : Str) (acc : RichText) (fg : Nat) :
    parseStep ⟨sty, cur, acc, .c2 fg⟩ ',' = ⟨sty, cur, acc, .cComma fg⟩ := rfl

/-- Consuming a one-digit rendered foreground group. -/
theorem foldl_fg_small (sty : TextStyle) (cur : Str) (acc : RichText) (fg : Nat)
    (h : fg < 10) :
    List.foldl parseStep ⟨sty, cur, acc, .c0⟩ (natStr fg) = ⟨sty, cur, acc, .c1 fg⟩ := by
  interval_cases fg <;> rfl

/-- Consuming a two-digit rendered foreground group (palette range). -/
theorem foldl_fg_two (sty : TextStyle) (cur : Str) (acc : RichText) (fg : Nat)
    (h1 : 10 ≤ fg) (h2 : fg ≤ 16) :
    List.foldl parseStep ⟨sty, cur, acc, .c0⟩ (natStr fg) = ⟨sty, cur, acc, .c2 fg⟩ := by
  interval_cases fg <;> rfl

/-- Consuming a one-digit rendered background group after the comma. -/
theorem foldl_bg_small (sty : TextStyle) (cur : Str) (acc : RichText) (fg b : Nat)
    (h : b < 10) :
    List.foldl parseStep ⟨sty, cur, acc, .cComma fg⟩ (natStr b) =
      ⟨sty, cur, acc, .cb1 fg b⟩ := by
  interval_cases b <;> rfl

/-- Consuming a two-digit rendered background group: the second digit
completes the whole color code. -/
theorem foldl_bg_two (sty : TextStyle) (cur : Str) (acc : RichText) (fg b : Nat)
    (h1 : 10 ≤ b) (h2 : b ≤ 16) :
    List.foldl parseStep ⟨sty, cur, acc, .cComma fg⟩ (natStr b) =
      ⟨{ sty with color := some ⟨fg, some b⟩ }, [],
        pushRun ⟨sty, cur, acc, .cComma fg⟩, .text⟩ := by
  interval_cases b <;> rfl

theorem toPlain_nil : RichText.toPlain [] = [] := rfl

theorem toPlain_cons (ts : TextStyle) (t : Str) (rest : RichText) :
    RichText.toPlain ((ts, t) :: rest) = t ++ RichText.toPlain rest := by
  simp [RichText.toPlain]

/-- Main invariant: folding the parser over the rendering of a well-behaved
rich text from any text-mode state appends exactly the plain text. -/
theorem parse_render :
    ∀ (rt : RichText) (sty : TextStyle) (cur : Str) (acc : RichText),
      (∀ p ∈ rt, goodRun p = true) →
      plainS (flushMode
        (List.foldl parseStep ⟨sty, cur, acc, .text⟩ (IRCHandle.formatRichText rt))) =
        RichText.toPlain acc ++ cur ++ RichText.toPlain rt := by
  intro rt
  induction rt with
  | nil =>
    intro sty cur acc _
    simp [IRCHandle.formatRichText, flushMode, plainS, toPlain_nil]
  | cons p rest ih =>
    obtain ⟨ts, t⟩ := p
    intro sty cur acc hg
    have hgrest : ∀ p ∈ rest, goodRun p = true := fun q hq => hg q (List.mem_cons_of_mem _ hq)
    have hgrun := hg (ts, t) (List.mem_cons_self _ _)
    rw [irc_cons, List.foldl_append]
    by_cases ht : t = []
    · subst ht
      rw [if_pos rfl, List.foldl_nil, ih _ _ _ hgrest]
      simp [toPlain_cons]
    · rw [goodRun, Bool.and_eq_true] at hgrun
      obtain ⟨hall, hcol⟩ := hgrun
      rw [if_neg ht]
      by_cases hn : ts.is_normal = true
      · rw [if_pos hn, foldl_plain _ _ _ _ hall, ih _ _ _ hgrest]
        simp [toPlain_cons, List.append_assoc]
      · rw [if_neg hn]
        cases t with
        | nil => exact absurd rfl ht
        | cons h t' =>
          rw [List.all_cons, Bool.and_eq_true] at hall
          obtain ⟨hh0', ht'⟩ := hall
          have hh0 : ircCtrlChars.contains h = false := by simpa using hh0'
          cases hco : ts.color with
          | none =>
            have hhc : ts.has_color = false := by simp [TextStyle.has_color, hco]
            cases hbo : ts.is_bold <;> cases hit : ts.is_italic <;>
              cases hun : ts.is_underline <;>
              simp [IRCHandle.ctrlOf, hbo, hit, hun, hhc, boundary,
                parseStep_BOLD, parseStep_ITALIC, parseStep_UNDERLINE, parseStep_RESET,
                parseStep_plain _ _ _ _ hh0, foldl_plain _ _ _ _ ht',
                toPlain_pushRun, toPlain_cons, ih _ _ _ hgrest, List.append_assoc]
          | some c =>
            rw [hco] at hcol
            simp at hcol
            obtain ⟨⟨hfg16, hbgm⟩, hdg, hcm⟩ := hcol
            cases hcb : c.bg with
            | none =>
              by_cases hfg10 : c.fg < 10
              · cases hbo : ts.is_bold <;> cases hit : ts.is_italic <;>
                  cases hun : ts.is_underline <;>
                  simp [IRCHandle.ctrlOf, hbo, hit, hun, TextStyle.has_color, hco, hcb,
                    ircColorCtrl, bgTruthy, boundary,
                    parseStep_BOLD, parseStep_ITALIC, parseStep_UNDERLINE, parseStep_RESET,
                    parseStep_COLOR, parseStep_plain _ _ _ _ hh0, foldl_plain _ _ _ _ ht',
                    foldl_fg_small _ _ _ _ hfg10, parseStep_c1_done _ _ _ _ _ hdg hcm hh0,
                    toPlain_pushRun, toPlain_cons, ih _ _ _ hgrest,
                    List.append_assoc]
              · have h10 : 10 ≤ c.fg := by omega
                cases hbo : ts.is_bold <;> cases hit : ts.is_italic <;>
                  cases hun : ts.is_underline <;>
                  simp [IRCHandle.ctrlOf, hbo, hit, hun, TextStyle.has_color, hco, hcb,
                    ircColorCtrl, bgTruthy, boundary,
                    parseStep_BOLD, parseStep_ITALIC, parseStep_UNDERLINE, parseStep_RESET,
                    parseStep_COLOR, parseStep_plain _ _ _ _ hh0, foldl_plain _ _ _ _ ht',
                    foldl_fg_two _ _ _ _ h10 hfg16, parseStep_c2_done _ _ _ _ _ hcm hh0,
                    toPlain_pushRun, toPlain_cons, ih _ _ _ hgrest,
                    List.append_assoc]
            | some b =>
              rw [hcb] at hbgm
              simp at hbgm
              have hb16 : b ≤ 16 := hbgm
              by_cases hbz : b = 0
              · subst hbz
                by_cases hfg10 : c.fg < 10
                · cases hbo : ts.is_bold <;> cases hit : ts.is_italic <;>
                    cases hun : ts.is_underline <;>
                    simp [IRCHandle.ctrlOf, hbo, hit, hun, TextStyle.has_color, hco, hcb,
                      ircColorCtrl, bgTruthy, boundary,
                      parseStep_BOLD, parseStep_ITALIC, parseStep_UNDERLINE, parseStep_RESET,
                      parseStep_COLOR, parseStep_plain _ _ _ _ hh0, foldl_plain _ _ _ _ ht',
                      foldl_fg_small _ _ _ _ hfg10, parseStep_c1_done _ _ _ _ _ hdg hcm hh0,
                      toPlain_pushRun, toPlain_cons, ih _ _ _ hgrest,
                      List.append_assoc]
                · have h10 : 10 ≤ c.fg := by omega
                  cases hbo : ts.is_bold <;> cases hit : ts.is_italic <;>
                    cases hun : ts.is_underline <;>
                    simp [IRCHandle.ctrlOf, hbo, hit, hun, TextStyle.has_color, hco, hcb,
                      ircColorCtrl, bgTruthy, boundary,
                      parseStep_BOLD, parseStep_ITALIC, parseStep_UNDERLINE, parseStep_RESET,
                      parseStep_COLOR, parseStep_plain _ _ _ _ hh0, foldl_plain _ _ _ _ ht',
                      foldl_fg_two _ _ _ _ h10 hfg16, parseStep_c2_done _ _ _ _ _ hcm hh0,
                      toPlain_pushRun, toPlain_cons, ih _ _ _ hgrest,
                      List.append_assoc]
              · by_cases hfg10 : c.fg < 10 <;> by_cases hb10 : b < 10
                · cases hbo : ts.is_bold <;> cases hit : ts.is_italic <;>
                    cases hun : ts.is_underline <;>
                    simp [IRCHandle.ctrlOf, hbo, hit, hun, TextStyle.has_color, hco, hcb,
                      ircColorCtrl, bgTruthy, hbz, boundary,
                      parseStep_BOLD, parseStep_ITALIC, parseStep_UNDERLINE, parseStep_RESET,
                      parseStep_COLOR, parseStep_plain _ _ _ _ hh0, foldl_plain _ _ _ _ ht',
                      foldl_fg_small _ _ _ _ hfg10, parseStep_comma_c1, foldl_bg_small _ _ _ _ _ hb10,
                      parseStep_cb1_done _ _ _ _ _ _ hdg hh0, hcm,
                      toPlain_pushRun, toPlain_cons, ih _ _ _ hgrest,
                      List.append_assoc]
                · have hb10' : 10 ≤ b := by omega
                  cases hbo : ts.is_bold <;> cases hit : ts.is_italic <;>
                    cases hun : ts.is_underline <;>
                    simp [IRCHandle.ctrlOf, hbo, hit, hun, TextStyle.has_color, hco, hcb,
                      ircColorCtrl, bgTruthy, hbz, boundary,
                      parseStep_BOLD, parseStep_ITALIC, parseStep_UNDERLINE, parseStep_RESET,
                      parseStep_COLOR, parseStep_plain _ _ _ _ hh0, foldl_plain _ _ _ _ ht',
                      foldl_fg_small _ _ _ _ hfg10, parseStep_comma_c1, foldl_bg_two _ _ _ _ _ hb10' hb16,
                      hdg, hcm,
                      toPlain_pushRun, toPlain_cons, ih _ _ _ hgrest,
                      List.append_assoc]
                · have h10 : 10 ≤ c.fg := by omega
                  cases hbo : ts.is_bold <;> cases hit : ts.is_italic <;>
                    cases hun : ts.is_underline <;>
                    simp [IRCHandle.ctrlOf, hbo, hit, hun, TextStyle.has_color, hco, hcb,
                      ircColorCtrl, bgTruthy, hbz, boundary,
                      parseStep_BOLD, parseStep_ITALIC, parseStep_UNDERLINE, parseStep_RESET,
                      parseStep_COLOR, parseStep_plain _ _ _ _ hh0, foldl_plain _ _ _ _ ht',
                      foldl_fg_two _ _ _ _ h10 hfg16, parseStep_comma_c2, foldl_bg_small _ _ _ _ _ hb10,
                      parseStep_cb1_done _ _ _ _ _ _ hdg hh0, hcm,
                      toPlain_pushRun, toPlain_cons, ih _ _ _ hgrest,
                      List.append_assoc]
                · have h10 : 10 ≤ c.fg := by omega
                  have hb10' : 10 ≤ b := by omega
                  cases hbo : ts.is_bold <;> cases hit : ts.is_italic <;>
                    cases hun : ts.is_underline <;>
                    simp [IRCHandle.ctrlOf, hbo, hit, hun, TextStyle.has_color, hco, hcb,
                      ircColorCtrl, bgTruthy, hbz, boundary,
                      parseStep_BOLD, parseStep_ITALIC, parseStep_UNDERLINE, parseStep_RESET,
                      parseStep_COLOR, parseStep_plain _ _ _ _ hh0, foldl_plain _ _ _ _ ht',
                      foldl_fg_two _ _ _ _ h10 hfg16, parseStep_comma_c2, foldl_bg_two _ _ _ _ _ hb10' hb16,
                      hdg, hcm,
                      toPlain_pushRun, toPlain_cons, ih _ _ _ hgrest,
                      List.append_assoc]

theorem toPlain_parseIRC (s : Str) :
    RichText.toPlain (parseIRC s) =
      plainS (flushMode (List.foldl parseStep ⟨{}, [], [], .text⟩ s)) := by
  rw [parseIRC]
  simp [plainS, toPlain_append, toPlain_cons, toPlain_nil]

/-- C1 (amended): for every rich text whose run texts contain no IRC control
bytes, whose color indices lie in the palette range, and whose colored runs'
text does not begin with a decimal digit or a comma, parsing the IRC
rendering back preserves the plain-text projection. -/
theorem claim_C1_irc_roundtrip_plain :
    ∀ rt : RichText, (∀ p ∈ rt, goodRun p = true) →
      RichText.toPlain (TextFormatter.parseIRC (IRCHandle.formatRichText rt)) =
        RichText.toPlain rt := by
  intro rt hg
  rw [toPlain_parseIRC, parse_render rt _ _ _ hg]
  simp [toPlain_nil]

/-- Witness for C1 at a concrete bold colored rich text. -/
theorem claim_C1_irc_roundtrip_plain_witness :
    (∀ p ∈ ([({ bold := true, color := some ⟨4, none⟩ }, "hi".toList)] : RichText),
      goodRun p = true) ∧
      RichText.toPlain (TextFormatter.parseIRC (IRCHandle.formatRichText
          [({ bold := true, color := some ⟨4, none⟩ }, "hi".toList)])) =
        RichText.toPlain [({ bold := true, color := some ⟨4, none⟩ }, "hi".toList)] :=
  ⟨by decide, claim_C1_irc_roundtrip_plain _ (by decide)⟩

/-- C1 (counterexample): as stated for every `RichText`, the round trip fails:
a normal run containing a raw control byte loses it; a colored run whose
text begins with a digit loses that digit to the color code; a colored run
whose text begins with a comma and a digit loses both to a background code;
and a foreground index beyond two digits leaks text into the output. -/
theorem claim_C1_counterexample :
    RichText.toPlain (TextFormatter.parseIRC (IRCHandle.formatRichText
        [({}, [ircBOLD])])) ≠ RichText.toPlain [(({} : TextStyle), [ircBOLD])] ∧
      RichText.toPlain (TextFormatter.parseIRC (IRCHandle.formatRichText
          [({ color := some ⟨2, none⟩ }, "5x".toList)])) ≠
        RichText.toPlain [({ color := some ⟨2, none⟩ }, "5x".toList)] ∧
      RichText.toPlain (TextFormatter.parseIRC (IRCHandle.formatRichText
          [({ color := some ⟨2, none⟩ }, ",3x".toList)])) ≠
        RichText.toPlain [({ color := some ⟨2, none⟩ }, ",3x".toList)] ∧
      RichText.toPlain (TextFormatter.parseIRC (IRCHandle.formatRichText
          [({ color := some ⟨100, none⟩ }, "x".toList)])) ≠
        RichText.toPlain [({ color := some ⟨100, none⟩ }, "x".toList)] := by
  decide

end Fishroom
